import Mathlib

/-!
# Verification of the TIMS (Bruker TDF) data-source core of `ms_deisotope`

A shallow embedding of `ms_deisotope/data_source/_vendor/bruker_tims.py`:
scan-identifier formatting and parsing, the packed scan-buffer decoder and
its buffer-size negotiation loop, PASEF precursor location, and spectrum
assembly.  Machine words of the scan buffer are `Nat` (the format stores
unsigned 32-bit words and the decoder never exceeds them), scan numbers and
frame identifiers are `Int` (Python integers), and the external native
coordinate-conversion service, the peak picker and the reprofiler are
abstracted as function parameters, per their interface contracts.
-/

/-- The error taxonomy of the module.  Python raises `RuntimeError` or
`ValueError` with distinct messages; the distinct failure modes become
constructors. -/
inductive TimsError where
  | serviceError
  | frameTooLarge
  | ambiguousPrecursorMatch
  | invalidScanIdentifier
  | unboundLocalCollisionEnergy
  deriving DecidableEq, Repr

/-- `PASEFPrecursorInformation.__init__` / `from_query`: one
precursor-selection window within a PASEF frame (row of the
`PasefFrameMsMsInfo ⋈ Precursors` join).  Numeric payload fields are
carried opaquely as integers. -/
structure PASEFPrecursorInformation where
  frame_id : Int
  start_scan : Int
  end_scan : Int
  isolation_mz : Int
  isolation_width : Int
  collision_energy : Int
  monoisotopic_mz : Int
  charge : Int
  average_scan_number : Int
  intensity : Int
  parent : Int
  deriving DecidableEq, Repr

/-- `TIMSFrame`: the fields of the frame row that the verified operations
read (`id`, `msms_type`, `scan_mode`, `num_scans`) together with the
attached precursor list. -/
structure TIMSFrame where
  id : Int
  msms_type : Int
  scan_mode : Int
  num_scans : Int
  pasef_precursors : List PASEFPrecursorInformation
  deriving DecidableEq, Repr

/-- `TIMSSpectrumDataBase.__init__`: a scan reference — a frame plus a
0-based `start_scan` and an optional explicit `end_scan` (`None` means a
single scan). -/
structure TIMSSpectrumDataBase where
  frame : TIMSFrame
  start_scan : Int
  end_scan_opt : Option Int
  deriving DecidableEq, Repr

/-- The `end_scan` property: the explicit end scan, or `start_scan + 1`
when none was given. -/
def TIMSSpectrumDataBase.end_scan (scan : TIMSSpectrumDataBase) : Int :=
  match scan.end_scan_opt with
  | none => scan.start_scan + 1
  | some e => e

/-- `TIMSSpectrumDataBase.is_combined`: true iff an explicit end scan is
set and `end_scan - start_scan > 1`. -/
def TIMSSpectrumDataBase.is_combined (scan : TIMSSpectrumDataBase) : Bool :=
  match scan.end_scan_opt with
  | none => false
  | some e => decide (e - scan.start_scan > 1)

/-- `TIMSSpectrumDataBase.make_id_string`: `frame=<id> scan=<n+1>` for a
single scan, `frame=<id> startScan=<s+1> endScan=<e+1>` for a range
(1-based in the displayed string). -/
def TIMSSpectrumDataBase.make_id_string (scan : TIMSSpectrumDataBase) : String :=
  match scan.end_scan_opt with
  | none =>
      "frame=" ++ toString scan.frame.id ++ " scan=" ++ toString (scan.start_scan + 1)
  | some _ =>
      "frame=" ++ toString scan.frame.id ++ " startScan=" ++ toString (scan.start_scan + 1)
        ++ " endScan=" ++ toString (scan.end_scan + 1)

/-! ## Identifier parsing

`single_scan_id_parser = re.compile(r"frame=(\d+) scan=(\d+)")` and
`multi_scan_id_parser = re.compile(r"frame=(\d+) startScan=(\d+) endScan=(\d+)")`,
used through `re.match`, which anchors at the start of the string only and
ignores trailing characters.  `\d+` is greedy; since each literal that
follows a group starts with a non-digit, greedy matching is maximal-munch
over digits. -/

/-- Strip an expected literal prefix from a character list (`None` when the
input does not start with it). -/
def dropLit : List Char → List Char → Option (List Char)
  | [], s => some s
  | _ :: _, [] => none
  | c :: cs, d :: ds => if c = d then dropLit cs ds else none

/-- Decimal value of a digit list (the regex groups are mapped through
Python `int`). -/
def digitsToNat (ds : List Char) : Nat :=
  ds.foldl (fun a c => 10 * a + (c.toNat - 48)) 0

/-- Match `\d+` at the head of the input: the maximal non-empty digit
prefix and the rest. -/
def takeNat (s : List Char) : Option (Nat × List Char) :=
  let ds := s.takeWhile Char.isDigit
  if ds.isEmpty then none else some (digitsToNat ds, s.dropWhile Char.isDigit)

/-- `re.match` with `single_scan_id_parser`: the two captured groups as
numbers, from a prefix of the string. -/
def single_scan_id_match (s : String) : Option (Nat × Nat) :=
  (dropLit ("frame=".toList) s.toList).bind fun r1 =>
  (takeNat r1).bind fun p =>
  (dropLit (" scan=".toList) p.2).bind fun r3 =>
  (takeNat r3).bind fun q =>
  some (p.1, q.1)

/-- `re.match` with `multi_scan_id_parser`: the three captured groups as
numbers, from a prefix of the string. -/
def multi_scan_id_match (s : String) : Option (Nat × Nat × Nat) :=
  (dropLit ("frame=".toList) s.toList).bind fun r1 =>
  (takeNat r1).bind fun p =>
  (dropLit (" startScan=".toList) p.2).bind fun r3 =>
  (takeNat r3).bind fun q =>
  (dropLit (" endScan=".toList) q.2).bind fun r5 =>
  (takeNat r5).bind fun w =>
  some (p.1, q.1, w.1)

/-- `TIMSData.get_scan_by_id`, parsing level: the frame id, the 0-based
`start_scan` and the optional explicit `end_scan` of the scan reference the
method constructs (`TIMSSpectrumDataBase(frame, scan_number - 1)` for the
single form, `TIMSSpectrumDataBase(frame, start_scan - 1, end_scan)` for
the range form; frame lookup and the scan façade are elided).  A string
neither parser matches raises — `InvalidScanIdentifier`. -/
def get_scan_by_id_ref (scan_id : String) :
    Except TimsError (Int × Int × Option Int) :=
  match single_scan_id_match scan_id with
  | some (frame_id, scan_number) =>
      .ok ((frame_id : Int), ((scan_number : Int) - 1, none))
  | none =>
      match multi_scan_id_match scan_id with
      | some (frame_id, start_scan, end_scan) =>
          .ok ((frame_id : Int), ((start_scan : Int) - 1, some (end_scan : Int)))
      | none => .error .invalidScanIdentifier

/-- A frame with no precursors, used to build concrete scan references. -/
def frame7 : TIMSFrame :=
  { id := 7, msms_type := 0, scan_mode := 0, num_scans := 10, pasef_precursors := [] }

/-- C1.  The single-scan identifier round-trips (frame 7, 0-based scan 2
formats to `frame=7 scan=3` and parses back to 0-based scan 2), but the
merged round-trip is off by one in the end scan: formatting the 0-based
half-open range `[2, 4)` of frame 7 yields `frame=7 startScan=3 endScan=5`,
and parsing that string yields `end_scan = 5`, not the 0-based end scan 4
the round-trip requires — `get_scan_by_id` decrements the parsed
`startScan` but not the parsed `endScan`. -/
theorem merged_id_roundtrip_shifts_end_scan :
    (TIMSSpectrumDataBase.make_id_string ⟨frame7, 2, none⟩ = "frame=7 scan=3"
      ∧ get_scan_by_id_ref "frame=7 scan=3" = .ok (7, 2, none))
    ∧ TIMSSpectrumDataBase.make_id_string ⟨frame7, 2, some 4⟩
        = "frame=7 startScan=3 endScan=5"
    ∧ get_scan_by_id_ref "frame=7 startScan=3 endScan=5" = .ok (7, 2, some 5)
    ∧ (5 : Int) ≠ 4 := by
  refine ⟨⟨?_, ?_⟩, ?_, ?_, by decide⟩ <;> rfl

/-! ## Precursor location

`TIMSScanDataSource._locate_pasef_precursor_for`.  The `Interval` class it
uses comes from `ms_deisotope.peak_dependency_network`, which is not among
the sources. -/

/-- Modelled from the spec: the `Interval` type of
`ms_deisotope.peak_dependency_network` (not in the sources); only its
bounds are used here. -/
structure TimsInterval where
  start : Int
  stop : Int
  deriving DecidableEq, Repr

/-- Modelled from the spec: `TimsInterval.overlaps`
(`ms_deisotope.peak_dependency_network`, not in the sources).  §4.4 reads
the match test as half-open interval overlap between the query range
`[start_scan, end_scan)` and each precursor range `[start_scan, end_scan)`:
two half-open ranges intersect iff each starts before the other ends. -/
def TimsInterval.overlaps (a b : TimsInterval) : Bool :=
  decide (a.start < b.stop) && decide (b.start < a.stop)

/-- `TIMSScanDataSource._locate_pasef_precursor_for`: for a combined scan,
collect every precursor whose interval overlaps the query interval — none
returns `None`, more than one raises (`AmbiguousPrecursorMatch`), exactly
one is returned; for a single scan, return the first precursor whose
half-open range contains the scan number, else `None`. -/
def locate_pasef_precursor_for (scan : TIMSSpectrumDataBase) :
    Except TimsError (Option PASEFPrecursorInformation) :=
  if scan.is_combined then
    let query_interval : TimsInterval := ⟨scan.start_scan, scan.end_scan⟩
    let matched := scan.frame.pasef_precursors.filter
      (fun precursor => query_interval.overlaps ⟨precursor.start_scan, precursor.end_scan⟩)
    if matched.length = 0 then .ok none
    else if matched.length > 1 then .error .ambiguousPrecursorMatch
    else .ok matched.head?
  else
    .ok (scan.frame.pasef_precursors.find?
      (fun precursor =>
        decide (precursor.start_scan ≤ scan.start_scan)
          && decide (scan.start_scan < precursor.end_scan)))

/-- C3.  For a combined scan reference, precursor location is governed by
half-open interval overlap between `[start_scan, end_scan)` and each
precursor's `[start_scan, end_scan)`: zero overlapping precursors yields
`None`, exactly one yields that precursor, more than one raises
`AmbiguousPrecursorMatch`; and the overlap test is exactly the half-open
one. -/
theorem locate_precursor_combined_overlap (scan : TIMSSpectrumDataBase)
    (hc : scan.is_combined = true) :
    (∀ p : PASEFPrecursorInformation,
        TimsInterval.overlaps ⟨scan.start_scan, scan.end_scan⟩ ⟨p.start_scan, p.end_scan⟩
          = (decide (scan.start_scan < p.end_scan) && decide (p.start_scan < scan.end_scan)))
    ∧ (scan.frame.pasef_precursors.filter
          (fun p => TimsInterval.overlaps ⟨scan.start_scan, scan.end_scan⟩
            ⟨p.start_scan, p.end_scan⟩) = []
        → locate_pasef_precursor_for scan = .ok none)
    ∧ (∀ p, scan.frame.pasef_precursors.filter
          (fun q => TimsInterval.overlaps ⟨scan.start_scan, scan.end_scan⟩
            ⟨q.start_scan, q.end_scan⟩) = [p]
        → locate_pasef_precursor_for scan = .ok (some p))
    ∧ (2 ≤ (scan.frame.pasef_precursors.filter
          (fun p => TimsInterval.overlaps ⟨scan.start_scan, scan.end_scan⟩
            ⟨p.start_scan, p.end_scan⟩)).length
        → locate_pasef_precursor_for scan = .error .ambiguousPrecursorMatch) := by
  refine ⟨fun p => rfl, ?_, ?_, ?_⟩
  · intro h
    simp only [locate_pasef_precursor_for, hc, if_true, h]
    rfl
  · intro p h
    simp only [locate_pasef_precursor_for, hc, if_true, h]
    rfl
  · intro h
    simp only [locate_pasef_precursor_for, hc, if_true]
    have h0 : ¬ ((scan.frame.pasef_precursors.filter
        (fun p => TimsInterval.overlaps ⟨scan.start_scan, scan.end_scan⟩
          ⟨p.start_scan, p.end_scan⟩)).length = 0) := by omega
    have h1 : (scan.frame.pasef_precursors.filter
        (fun p => TimsInterval.overlaps ⟨scan.start_scan, scan.end_scan⟩
          ⟨p.start_scan, p.end_scan⟩)).length > 1 := by omega
    simp only [TIMSSpectrumDataBase.end_scan] at h0 h1 ⊢
    rw [if_neg h0, if_pos h1]

/-- A frame with two precursor windows `[0, 3)` and `[5, 9)`, both
overlapping the query range `[2, 6)`. -/
def framePasef : TIMSFrame :=
  { id := 3, msms_type := 8, scan_mode := 8, num_scans := 12,
    pasef_precursors :=
      [⟨3, 0, 3, 500, 2, 35, 499, 2, 1, 1000, 1⟩,
       ⟨3, 5, 9, 700, 2, 42, 699, 3, 7, 2000, 1⟩] }

/-- Witness for C3: on a concrete combined scan `[2, 6)` of a frame with
two overlapping precursor windows, location raises
`AmbiguousPrecursorMatch`. -/
theorem locate_precursor_combined_overlap_witness :
    locate_pasef_precursor_for ⟨framePasef, 2, some 6⟩
      = .error .ambiguousPrecursorMatch :=
  (locate_precursor_combined_overlap ⟨framePasef, 2, some 6⟩ (by decide)).2.2.2
    (by decide)

/-- C4.  For a single-scan reference with scan number `s`, location scans
the precursor list linearly and returns the first precursor whose half-open
range `[start_scan, end_scan)` contains `s` (so a scan exactly at
`end_scan` never matches), and `None` when no precursor contains `s`. -/
theorem locate_precursor_single_containment (scan : TIMSSpectrumDataBase)
    (hnc : scan.is_combined = false) :
    ((∀ p ∈ scan.frame.pasef_precursors,
        ¬ (p.start_scan ≤ scan.start_scan ∧ scan.start_scan < p.end_scan))
      → locate_pasef_precursor_for scan = .ok none)
    ∧ (∀ l1 P l2, scan.frame.pasef_precursors = l1 ++ P :: l2
        → (∀ q ∈ l1, ¬ (q.start_scan ≤ scan.start_scan ∧ scan.start_scan < q.end_scan))
        → P.start_scan ≤ scan.start_scan ∧ scan.start_scan < P.end_scan
        → locate_pasef_precursor_for scan = .ok (some P))
    ∧ (∀ P, locate_pasef_precursor_for scan = .ok (some P)
        → P.start_scan ≤ scan.start_scan ∧ scan.start_scan < P.end_scan) := by
  have hloc : locate_pasef_precursor_for scan
      = .ok (scan.frame.pasef_precursors.find?
        (fun precursor =>
          decide (precursor.start_scan ≤ scan.start_scan)
            && decide (scan.start_scan < precursor.end_scan))) := by
    simp only [locate_pasef_precursor_for, hnc, Bool.false_eq_true, if_false]
  refine ⟨?_, ?_, ?_⟩
  · intro h
    rw [hloc, List.find?_eq_none.mpr]
    intro p hp
    have := h p hp
    simp only [Bool.and_eq_true, decide_eq_true_eq]
    tauto
  · intro l1 P l2 hsplit hfail hP
    rw [hloc, hsplit]
    clear hloc hsplit
    induction l1 with
    | nil =>
        simp only [List.nil_append, List.find?_cons,
          decide_eq_true (hP.1), decide_eq_true (hP.2), Bool.and_self]
    | cons a t ih =>
        have ha := hfail a (by simp)
        have hdec : (decide (a.start_scan ≤ scan.start_scan)
            && decide (scan.start_scan < a.end_scan)) = false := by
          simp only [Bool.and_eq_false_iff, decide_eq_false_iff_not]
          tauto
        simp only [List.cons_append, List.find?_cons, hdec]
        exact ih (fun q hq => hfail q (by simp [hq]))
  · intro P hP
    rw [hloc] at hP
    have : scan.frame.pasef_precursors.find?
        (fun precursor =>
          decide (precursor.start_scan ≤ scan.start_scan)
            && decide (scan.start_scan < precursor.end_scan)) = some P := by
      cases h : scan.frame.pasef_precursors.find?
        (fun precursor =>
          decide (precursor.start_scan ≤ scan.start_scan)
            && decide (scan.start_scan < precursor.end_scan)) with
      | none => rw [h] at hP; cases hP
      | some q => rw [h] at hP; cases hP; rfl
    have := List.find?_some this
    simpa only [Bool.and_eq_true, decide_eq_true_eq] using this

/-- Witness for C4: on a concrete single scan at scan number 5 of a frame
whose precursor windows are `[0, 3)` and `[5, 9)`, location returns the
second window (containment, first match). -/
theorem locate_precursor_single_containment_witness :
    locate_pasef_precursor_for ⟨framePasef, 5, none⟩
      = .ok (some ⟨3, 5, 9, 700, 2, 42, 699, 3, 7, 2000, 1⟩) :=
  (locate_precursor_single_containment ⟨framePasef, 5, none⟩ (by decide)).2.1
    [⟨3, 0, 3, 500, 2, 35, 499, 2, 1, 1000, 1⟩]
    ⟨3, 5, 9, 700, 2, 42, 699, 3, 7, 2000, 1⟩ [] (by decide)
    (by decide) (by decide)

/-! ## Scan buffer decoding

`TIMSData.read_scans`: after the buffer-size negotiation the raw buffer
holds, per mobility scan in range, a 32-bit peak count at the front,
followed by the interleaved payloads (for each scan, `count` index words
then `count` intensity words).  NumPy slices truncate at the end of the
buffer exactly as `List.take`/`List.drop` do. -/

/-- The decoding loop of `read_scans` (lines after the negotiation): one
`(indices, intensities)` pair per count word, walking the payload region at
cursor `d`. -/
def decode_scans_from (buf : List Nat) : List Nat → Nat → List (List Nat × List Nat)
  | [], _ => []
  | npeaks :: rest, d =>
      ((buf.drop d).take npeaks, (buf.drop (d + npeaks)).take npeaks)
        :: decode_scans_from buf rest (d + npeaks + npeaks)

/-- `TIMSData.read_scans`, decoding level: the count words are the first
`scan_end - scan_begin` words of the buffer, and the payload cursor starts
right after them. -/
def read_scans_decode (buf : List Nat) (scan_begin scan_end : Int) :
    List (List Nat × List Nat) :=
  let d := (scan_end - scan_begin).toNat
  decode_scans_from buf (buf.take d) d

theorem decode_scans_from_length (buf : List Nat) (counts : List Nat) (d : Nat) :
    (decode_scans_from buf counts d).length = counts.length := by
  induction counts generalizing d with
  | nil => rfl
  | cons n rest ih => simp [decode_scans_from, ih]

theorem take_getD (l : List Nat) (n i : Nat) (h : i < n) :
    (l.take n).getD i 0 = l.getD i 0 := by
  induction l generalizing n i with
  | nil => simp
  | cons a t ih =>
      cases n with
      | zero => omega
      | succ m =>
          cases i with
          | zero => simp
          | succ j => simpa using ih m j (by omega)

theorem take_sum_getD_le (l : List Nat) (i : Nat) (h : i < l.length) :
    (l.take i).sum + l.getD i 0 ≤ l.sum := by
  induction l generalizing i with
  | nil => simp at h
  | cons a t ih =>
      cases i with
      | zero => simp
      | succ j =>
          have := ih j (by simpa using h)
          simp only [List.take_succ_cons, List.sum_cons, List.getD_cons_succ]
          omega

theorem decode_scans_from_getD (buf : List Nat) (counts : List Nat) (d i : Nat)
    (hi : i < counts.length) :
    (decode_scans_from buf counts d).getD i ([], [])
      = ((buf.drop (d + 2 * (counts.take i).sum)).take (counts.getD i 0),
         (buf.drop (d + 2 * (counts.take i).sum + counts.getD i 0)).take
           (counts.getD i 0)) := by
  induction counts generalizing d i with
  | nil => simp at hi
  | cons n rest ih =>
      cases i with
      | zero => simp [decode_scans_from]
      | succ j =>
          have hj : j < rest.length := by simpa using hi
          have := ih (d + n + n) j hj
          have harith : d + n + n + 2 * (rest.take j).sum
              = d + 2 * (n + (rest.take j).sum) := by ring
          simp only [decode_scans_from, List.getD_cons_succ, this, harith,
            List.take_succ_cons, List.sum_cons, List.getD_cons_succ]

theorem length_drop_take (buf : List Nat) (m n : Nat) (h : m + n ≤ buf.length) :
    ((buf.drop m).take n).length = n := by
  simp only [List.length_take, List.length_drop]
  omega

theorem decode_scans_from_mem_lengths (buf : List Nat) (counts : List Nat) (d : Nat)
    (h : d + 2 * counts.sum ≤ buf.length) :
    ∀ p ∈ decode_scans_from buf counts d, p.1.length = p.2.length := by
  induction counts generalizing d with
  | nil => intro p hp; simp [decode_scans_from] at hp
  | cons n rest ih =>
      intro p hp
      have hsum : d + 2 * (n + rest.sum) ≤ buf.length := by
        simpa [List.sum_cons] using h
      rw [decode_scans_from, List.mem_cons] at hp
      rcases hp with hp | hp
      · subst hp
        rw [length_drop_take buf d n (by omega),
          length_drop_take buf (d + n) n (by omega)]
      · exact ih (d + n + n) (by omega) p hp

/-- C2.  For `scan_begin < scan_end`, once the buffer holds the whole
layout (count words plus both payload halves), `read_scans` decodes
exactly `scan_end - scan_begin` pairs in scan order, and pair `i` is the
contiguous slice of the payload region selected by the `i`-th count word
at the front of the buffer — `count` index words then `count` intensity
words, each sequence of length exactly that count, with no sorting. -/
theorem read_scans_decode_shape (buf : List Nat) (scan_begin scan_end : Int)
    (hbe : scan_begin < scan_end)
    (hlen : (scan_end - scan_begin).toNat
        + 2 * (buf.take (scan_end - scan_begin).toNat).sum ≤ buf.length) :
    (read_scans_decode buf scan_begin scan_end).length
        = (scan_end - scan_begin).toNat
    ∧ ∀ i, i < (scan_end - scan_begin).toNat →
        ((read_scans_decode buf scan_begin scan_end).getD i ([], [])).1
            = (buf.drop ((scan_end - scan_begin).toNat
                + 2 * ((buf.take (scan_end - scan_begin).toNat).take i).sum)).take
                (buf.getD i 0)
        ∧ ((read_scans_decode buf scan_begin scan_end).getD i ([], [])).2
            = (buf.drop ((scan_end - scan_begin).toNat
                + 2 * ((buf.take (scan_end - scan_begin).toNat).take i).sum
                + buf.getD i 0)).take (buf.getD i 0)
        ∧ (((read_scans_decode buf scan_begin scan_end).getD i ([], [])).1).length
            = buf.getD i 0
        ∧ (((read_scans_decode buf scan_begin scan_end).getD i ([], [])).2).length
            = buf.getD i 0 := by
  set d := (scan_end - scan_begin).toNat with hd
  have hdlen : d ≤ buf.length := by omega
  have hcounts : (buf.take d).length = d := by
    simp [List.length_take]; omega
  constructor
  · rw [read_scans_decode, decode_scans_from_length, hcounts]
  · intro i hi
    have hic : i < (buf.take d).length := by omega
    have hgetD := decode_scans_from_getD buf (buf.take d) d i hic
    have hcgd : (buf.take d).getD i 0 = buf.getD i 0 := take_getD buf d i hi
    have hbound := take_sum_getD_le (buf.take d) i hic
    rw [hcgd] at hgetD hbound
    have hfit : d + 2 * ((buf.take d).take i).sum + 2 * buf.getD i 0 ≤ buf.length := by
      omega
    refine ⟨?_, ?_, ?_, ?_⟩
    · rw [read_scans_decode, hgetD]
    · rw [read_scans_decode, hgetD]
    · rw [read_scans_decode, hgetD]
      exact length_drop_take buf _ _ (by omega)
    · rw [read_scans_decode, hgetD]
      exact length_drop_take buf _ _ (by omega)

/-- Witness for C2: the concrete buffer `[2, 0, 10, 11, 5, 6]` decoded over
the scan range `[0, 2)` — counts `2` and `0`, first pair `([10, 11], [5, 6])`,
second pair empty. -/
theorem read_scans_decode_shape_witness :
    (read_scans_decode [2, 0, 10, 11, 5, 6] 0 2).length = 2
    ∧ ((read_scans_decode [2, 0, 10, 11, 5, 6] 0 2).getD 0 ([], [])).1 = [10, 11]
    ∧ ((read_scans_decode [2, 0, 10, 11, 5, 6] 0 2).getD 0 ([], [])).2 = [5, 6] := by
  have h := read_scans_decode_shape [2, 0, 10, 11, 5, 6] 0 2 (by decide) (by decide)
  exact ⟨h.1, by rw [(h.2 0 (by decide)).1]; rfl, by rw [(h.2 0 (by decide)).2.1]; rfl⟩

/-! ## Buffer-size negotiation

The `while True` loop at the head of `TIMSData.read_scans`.  The external
service call `tims_read_scans_v2` is abstracted as a function from the
supplied buffer size in bytes to the required byte length it reports; the
running estimate `initial_frame_buffer_size` is the loop state.  In Python 3
the growth step `required_len / 4 + 1` is float division followed by
`int(...)` truncation at the next iteration, which for `required_len ≤ 2^24`
(exactly representable) equals `required_len / 4 + 1` in integer division. -/

/-- Outcome of the negotiation loop: the accepted buffer size in four-byte
units, or a raised error (`FrameTooLarge` past the 16 MiB ceiling,
`ServiceError` on a zero return), or running out of the step budget. -/
inductive NegotiationResult where
  | success (cnt : Nat)
  | frameTooLarge
  | serviceError
  | fuelExhausted
  deriving DecidableEq, Repr

/-- The buffer-growing loop of `TIMSData.read_scans`, with an explicit step
budget (`fuel`) in place of `while True`. -/
def read_scans_negotiate (svc : Nat → Nat) : Nat → Nat → NegotiationResult
  | 0, _ => .fuelExhausted
  | fuel + 1, estimate =>
      let buffer_size_in_bytes := 4 * estimate
      let required_len := svc buffer_size_in_bytes
      if required_len = 0 then .serviceError
      else if required_len > buffer_size_in_bytes then
        if required_len > 16777216 then .frameTooLarge
        else read_scans_negotiate svc fuel (required_len / 4 + 1)
      else .success estimate

/-- C5.  When the service reports a required length larger than the
supplied buffer: past the 16777216-byte ceiling the loop fails with
`FrameTooLarge` at once, whatever step budget remains (no retry, no larger
allocation); otherwise it retries with the estimate set to
`required_len / 4 + 1` four-byte units, an allocation of at most the
ceiling plus one unit. -/
theorem read_scans_negotiation (svc : Nat → Nat) (fuel estimate : Nat)
    (hgrow : svc (4 * estimate) > 4 * estimate) :
    (svc (4 * estimate) > 16777216 →
        read_scans_negotiate svc (fuel + 1) estimate = .frameTooLarge)
    ∧ (svc (4 * estimate) ≤ 16777216 →
        read_scans_negotiate svc (fuel + 1) estimate
            = read_scans_negotiate svc fuel (svc (4 * estimate) / 4 + 1)
          ∧ 4 * (svc (4 * estimate) / 4 + 1) ≤ 16777216 + 4) := by
  have hne : ¬ (svc (4 * estimate) = 0) := by omega
  constructor
  · intro hbig
    rw [read_scans_negotiate]
    simp only [if_neg hne, if_pos hgrow, if_pos hbig]
  · intro hsmall
    have hnbig : ¬ (svc (4 * estimate) > 16777216) := by omega
    constructor
    · rw [read_scans_negotiate]
      simp only [if_neg hne, if_pos hgrow, if_neg hnbig]
    · omega

/-- Witness for C5: a service reporting 20000000 required bytes against a
512-byte buffer (estimate 128) makes the loop fail with `FrameTooLarge`
immediately. -/
theorem read_scans_negotiation_witness :
    read_scans_negotiate (fun _ => 20000000) 1 128 = .frameTooLarge :=
  (read_scans_negotiation (fun _ => 20000000) 0 128 (by decide)).1 (by decide)

/-! ## Spectrum assembly

`TIMSData.read_spectrum` and `TIMSScanDataSource._scan_arrays`.  The
coordinate conversion `tims_index_to_mz` is an elementwise batched
transform (§4.1: same-length input and output arrays), abstracted by a
function on single values. -/

/-- The accumulation loop of `read_spectrum`: concatenate the index and
intensity sequences of every scan whose index sequence is non-empty,
preserving scan order. -/
def collect_nonempty : List (List Nat × List Nat) → List Nat × List Nat
  | [] => ([], [])
  | (indices, intensities) :: rest =>
      let acc := collect_nonempty rest
      if indices.length > 0 then (indices ++ acc.1, intensities ++ acc.2) else acc

/-- One batched call of the Coordinate Service Adapter
(`TIMSData.index_to_mz` → `tims_index_to_mz`): a 1:1 elementwise transform
of the whole array. -/
def index_to_mz (conv : Nat → Int) (values : List Nat) : List Int :=
  values.map conv

/-- `TIMSData.read_spectrum`: decode the scans, concatenate the non-empty
ones, convert the concatenated indices to m/z through a single
`index_to_mz` call, and return the pair in concatenation order. -/
def read_spectrum (conv : Nat → Int) (buf : List Nat) (scan_begin scan_end : Int) :
    List Int × List Nat :=
  let scans := read_scans_decode buf scan_begin scan_end
  let acc := collect_nonempty scans
  (index_to_mz conv acc.1, acc.2)

theorem collect_nonempty_eq (l : List (List Nat × List Nat)) :
    collect_nonempty l
      = (((l.filter fun p => decide (0 < p.1.length)).map Prod.fst).flatten,
         ((l.filter fun p => decide (0 < p.1.length)).map Prod.snd).flatten) := by
  induction l with
  | nil => rfl
  | cons x rest ih =>
      obtain ⟨indices, intensities⟩ := x
      by_cases hx : 0 < indices.length
      · simp [collect_nonempty, ih, List.filter_cons, hx]
      · simp [collect_nonempty, ih, List.filter_cons, hx]

/-- C6.  Under the same buffer-adequacy condition as C2, `read_spectrum`
returns the single batched index-to-m/z conversion of the concatenated
index sequences of exactly the non-empty decoded scans (in scan order),
paired with the matching concatenated intensity sequences, the two of
equal length and in concatenation order. -/
theorem read_spectrum_assembly (conv : Nat → Int) (buf : List Nat)
    (scan_begin scan_end : Int) (hbe : scan_begin < scan_end)
    (hlen : (scan_end - scan_begin).toNat
        + 2 * (buf.take (scan_end - scan_begin).toNat).sum ≤ buf.length) :
    read_spectrum conv buf scan_begin scan_end
        = (index_to_mz conv
            (((read_scans_decode buf scan_begin scan_end).filter
              (fun p => decide (0 < p.1.length))).map Prod.fst).flatten,
           (((read_scans_decode buf scan_begin scan_end).filter
              (fun p => decide (0 < p.1.length))).map Prod.snd).flatten)
    ∧ (read_spectrum conv buf scan_begin scan_end).1.length
        = (read_spectrum conv buf scan_begin scan_end).2.length := by
  have heq : read_spectrum conv buf scan_begin scan_end
      = (index_to_mz conv
          (((read_scans_decode buf scan_begin scan_end).filter
            (fun p => decide (0 < p.1.length))).map Prod.fst).flatten,
         (((read_scans_decode buf scan_begin scan_end).filter
            (fun p => decide (0 < p.1.length))).map Prod.snd).flatten) := by
    rw [read_spectrum, collect_nonempty_eq]
  refine ⟨heq, ?_⟩
  have hpairs : ∀ p ∈ read_scans_decode buf scan_begin scan_end,
      p.1.length = p.2.length :=
    decode_scans_from_mem_lengths buf _ _ hlen
  rw [heq]
  simp only [index_to_mz, List.length_map, List.length_flatten, List.map_map]
  refine congrArg List.sum (List.map_congr_left ?_)
  intro p hp
  exact hpairs p (List.mem_of_mem_filter hp)

/-- Witness for C6: on the concrete buffer `[2, 0, 10, 11, 5, 6]` over the
scan range `[0, 2)`, the assembled m/z and intensity sequences have equal
length. -/
theorem read_spectrum_assembly_witness :
    (read_spectrum (fun n => (n : Int)) [2, 0, 10, 11, 5, 6] 0 2).1.length
      = (read_spectrum (fun n => (n : Int)) [2, 0, 10, 11, 5, 6] 0 2).2.length :=
  (read_spectrum_assembly (fun n => (n : Int)) [2, 0, 10, 11, 5, 6] 0 2
    (by decide) (by decide)).2

/-! ## Spectrum assembler branching

`TIMSScanDataSource._scan_arrays`.  The peak picker (`pick_peaks`) and the
reprofiler (`reprofile`) come from the external `ms_peak_picker` package
(out of scope per §1); they are abstracted as function parameters, with the
centroid list an abstract type.  `np.argsort` followed by fancy-indexing
both arrays is rendered as sorting the zipped pairs by the m/z key. -/

/-- The sort step of the combined branch: order the paired `(mz, intensity)`
values by ascending m/z and split them back into two arrays. -/
def sort_by_mz (mzs : List Int) (intensities : List Nat) : List Int × List Nat :=
  let paired := (mzs.zip intensities).mergeSort (fun a b => decide (a.1 ≤ b.1))
  (paired.map Prod.fst, paired.map Prod.snd)

/-- `default_scan_merging_parameters["fwhm"] = 0.04`. -/
def default_scan_merging_fwhm : ℚ := 4 / 100

/-- `default_scan_merging_parameters["dx"] = 0.001`. -/
def default_scan_merging_dx : ℚ := 1 / 1000

/-- `TIMSScanDataSource._scan_arrays`: a combined scan is read, sorted by
m/z, centroided with `pick_peaks` and reprofiled with the smoothing
parameters `dx` and `fwhm`; a single scan returns the decoded, converted
pair as-is.  `bufOf` supplies each frame's negotiated raw buffer. -/
def _scan_arrays {C : Type} (pick_peaks : List Int → List Nat → C)
    (reprofile : C → ℚ → ℚ → List Int × List Nat)
    (fwhm dx : ℚ) (conv : Nat → Int) (bufOf : Int → List Nat)
    (scan : TIMSSpectrumDataBase) : List Int × List Nat :=
  if scan.is_combined then
    let sp := read_spectrum conv (bufOf scan.frame.id) scan.start_scan scan.end_scan
    let sorted := sort_by_mz sp.1 sp.2
    let centroids := pick_peaks sorted.1 sorted.2
    reprofile centroids dx fwhm
  else
    read_spectrum conv (bufOf scan.frame.id) scan.start_scan scan.end_scan

/-- C7.  Spectrum assembly branches exactly on `is_combined` (true iff an
explicit end scan is set and exceeds `start_scan + 1`): a non-combined
scan returns the decoded, converted pair unchanged, and a combined scan
returns the reprofiled centroids of the m/z-sorted pair, with the two
smoothing parameters threaded to the reprofiler. -/
theorem scan_arrays_branching {C : Type} (pick_peaks : List Int → List Nat → C)
    (reprofile : C → ℚ → ℚ → List Int × List Nat) (fwhm dx : ℚ)
    (conv : Nat → Int) (bufOf : Int → List Nat) (scan : TIMSSpectrumDataBase) :
    (scan.is_combined = true
        ↔ ∃ e, scan.end_scan_opt = some e ∧ scan.start_scan + 1 < e)
    ∧ (scan.is_combined = false →
        _scan_arrays pick_peaks reprofile fwhm dx conv bufOf scan
          = read_spectrum conv (bufOf scan.frame.id) scan.start_scan scan.end_scan)
    ∧ (scan.is_combined = true →
        _scan_arrays pick_peaks reprofile fwhm dx conv bufOf scan
          = reprofile
              (pick_peaks
                (sort_by_mz
                  (read_spectrum conv (bufOf scan.frame.id) scan.start_scan
                    scan.end_scan).1
                  (read_spectrum conv (bufOf scan.frame.id) scan.start_scan
                    scan.end_scan).2).1
                (sort_by_mz
                  (read_spectrum conv (bufOf scan.frame.id) scan.start_scan
                    scan.end_scan).1
                  (read_spectrum conv (bufOf scan.frame.id) scan.start_scan
                    scan.end_scan).2).2)
              dx fwhm) := by
  refine ⟨?_, ?_, ?_⟩
  · rw [TIMSSpectrumDataBase.is_combined]
    cases h : scan.end_scan_opt with
    | none => simp
    | some e =>
        simp only [decide_eq_true_eq, Option.some.injEq]
        constructor
        · intro hgt; exact ⟨e, rfl, by omega⟩
        · rintro ⟨f, hf, hgt⟩; omega
  · intro h
    rw [_scan_arrays, h]
    simp
  · intro h
    rw [_scan_arrays, h]
    simp

/-! ## Frame loading

`TIMSData.get_frame_by_id`, minus the weak cache and the SQLite
connection: the frame row and the `PasefFrameMsMsInfo ⋈ Precursors` join
table are values.  The fragmentation-type dispatch (`MsMsType` 0 = MS1,
8 = PASEF-MS2, anything else warned about) is what C9 is about. -/

/-- The frame row as `SELECT * FROM Frames WHERE Id=...` returns it (the
fields the dispatch reads). -/
structure FrameRow where
  id : Int
  msms_type : Int
  scan_mode : Int
  num_scans : Int
  deriving DecidableEq, Repr

/-- The precursor-selection join query (`... WHERE Frame = ? ORDER BY
ScanNumBegin`): the table rows for this frame, ordered by `start_scan`. -/
def query_pasef_precursors (table : List PASEFPrecursorInformation)
    (frame_id : Int) : List PASEFPrecursorInformation :=
  (table.filter (fun p => decide (p.frame_id = frame_id))).mergeSort
    (fun a b => decide (a.start_scan ≤ b.start_scan))

/-- `TIMSData.get_frame_by_id` (cache elided): build the frame; type 0
attaches nothing, type 8 attaches the join-query result, any other type
emits a non-fatal warning (the Boolean) and attaches nothing.  The
function always returns a frame — no failure path exists. -/
def get_frame_by_id (row : FrameRow) (table : List PASEFPrecursorInformation) :
    TIMSFrame × Bool :=
  if row.msms_type = 0 then
    (⟨row.id, row.msms_type, row.scan_mode, row.num_scans, []⟩, false)
  else if row.msms_type = 8 then
    (⟨row.id, row.msms_type, row.scan_mode, row.num_scans,
      query_pasef_precursors table row.id⟩, false)
  else
    (⟨row.id, row.msms_type, row.scan_mode, row.num_scans, []⟩, true)

/-- C9.  A frame whose fragmentation-type code is neither 0 (MS1) nor 8
(PASEF-MS2) is returned normally with the warning flag set and an empty
precursor list; only type 8 attaches the precursor join-query result, and
types 0 and 8 do not warn. -/
theorem get_frame_unsupported_type_warns (row : FrameRow)
    (table : List PASEFPrecursorInformation) :
    (row.msms_type ≠ 0 → row.msms_type ≠ 8 →
        (get_frame_by_id row table).2 = true
        ∧ (get_frame_by_id row table).1.pasef_precursors = [])
    ∧ (row.msms_type ≠ 8 → (get_frame_by_id row table).1.pasef_precursors = [])
    ∧ (row.msms_type = 8 →
        (get_frame_by_id row table).1.pasef_precursors
            = query_pasef_precursors table row.id
        ∧ (get_frame_by_id row table).2 = false)
    ∧ (row.msms_type = 0 → (get_frame_by_id row table).2 = false) := by
  by_cases h0 : row.msms_type = 0
  · refine ⟨fun h => absurd h0 h, ?_, ?_, fun _ => ?_⟩ <;>
      simp [get_frame_by_id, h0]
  · by_cases h8 : row.msms_type = 8
    · refine ⟨fun _ h => absurd h8 h, fun h => absurd h8 h, fun _ => ?_, fun h => absurd h h0⟩
      simp [get_frame_by_id, h0, h8]
    · refine ⟨fun _ _ => ?_, fun _ => ?_, fun h => absurd h h8, fun h => absurd h h0⟩ <;>
        simp [get_frame_by_id, h0, h8]

/-! ## Activation

`TIMSScanDataSource._activation`.  In the source, `collision_energy` is
assigned only inside `if precursor is not None:`, yet it is used
unconditionally in the `ActivationInformation(...)` call on the next line;
when no precursor matches, Python raises `UnboundLocalError` (locals never
survive between calls, so the name is unbound on every such call).  The
maybe-unbound local is modelled as an `Option` that starts out unset. -/

/-- The two dissociation methods `_activation` can pick. -/
inductive DissociationMethod where
  | collisionInducedDissociation
  | inSourceCollisionInducedDissociation
  deriving DecidableEq, Repr

/-- The `(method, energy)` pair `ActivationInformation(method, collision_energy)`
carries. -/
structure ActivationInformation where
  method : DissociationMethod
  energy : Int
  deriving DecidableEq, Repr

/-- The scan-mode dispatch at the head of `_activation`: modes 2, 8, 9 map
to CID, modes 3, 4, 5 to in-source CID, anything else falls back to CID
(with a printed warning). -/
def activation_method_for_mode (mode : Int) : DissociationMethod :=
  if mode = 2 ∨ mode = 8 ∨ mode = 9 then .collisionInducedDissociation
  else if mode = 3 ∨ mode = 4 ∨ mode = 5 then .inSourceCollisionInducedDissociation
  else .collisionInducedDissociation

/-- `TIMSScanDataSource._activation`: pick the method from the scan mode,
locate the precursor, bind `collision_energy` only when one was found, and
then read `collision_energy` unconditionally. -/
def _activation (scan : TIMSSpectrumDataBase) :
    Except TimsError ActivationInformation := do
  let method := activation_method_for_mode scan.frame.scan_mode
  let precursor ← locate_pasef_precursor_for scan
  let collision_energy : Option Int :=
    match precursor with
    | some p => some p.collision_energy
    | none => none
  match collision_energy with
  | some ce => return ⟨method, ce⟩
  | none => .error .unboundLocalCollisionEnergy

/-- C10.  When the precursor locator finds nothing, `_activation` does not
return an `ActivationInformation` with any default energy — it fails with
the unbound-local error on the never-assigned `collision_energy`; it
returns normally exactly when a precursor was found, with that precursor's
collision energy. -/
theorem activation_unbound_collision_energy (scan : TIMSSpectrumDataBase) :
    (locate_pasef_precursor_for scan = .ok none →
        _activation scan = .error .unboundLocalCollisionEnergy)
    ∧ (∀ p, locate_pasef_precursor_for scan = .ok (some p) →
        _activation scan
          = .ok ⟨activation_method_for_mode scan.frame.scan_mode,
              p.collision_energy⟩) := by
  constructor
  · intro h
    simp only [_activation, h]
    rfl
  · intro p h
    simp only [_activation, h]
    rfl

/-! ## The identifier grammar of §6 versus the parser

§6 fixes the two identifier formats and says every other string is
rejected with `InvalidScanIdentifier`.  The predicates below are written
to the spec's words (not taken from the source), to be compared with
`get_scan_by_id_ref`: first the exact whole-string forms, then the
prefix forms that `re.match` actually enforces. -/

/-- Written to the spec's words: the whole string is
`frame=<int> scan=<int>`. -/
def spec_single_scan_form (s : String) : Prop :=
  ∃ f n : List Char, f ≠ [] ∧ n ≠ []
    ∧ (∀ c ∈ f, Char.isDigit c = true) ∧ (∀ c ∈ n, Char.isDigit c = true)
    ∧ s.toList = "frame=".toList ++ (f ++ (" scan=".toList ++ n))

/-- Written to the spec's words: the whole string is
`frame=<int> startScan=<int> endScan=<int>`. -/
def spec_multi_scan_form (s : String) : Prop :=
  ∃ f a b : List Char, f ≠ [] ∧ a ≠ [] ∧ b ≠ []
    ∧ (∀ c ∈ f, Char.isDigit c = true) ∧ (∀ c ∈ a, Char.isDigit c = true)
    ∧ (∀ c ∈ b, Char.isDigit c = true)
    ∧ s.toList = "frame=".toList ++ (f ++ (" startScan=".toList
        ++ (a ++ (" endScan=".toList ++ b))))

/-- The string *begins with* `frame=<int> scan=<int>`; arbitrary trailing
characters may follow (the anchoring `re.match` provides). -/
def spec_single_scan_prefix_form (s : String) : Prop :=
  ∃ f n rest : List Char, f ≠ [] ∧ n ≠ []
    ∧ (∀ c ∈ f, Char.isDigit c = true) ∧ (∀ c ∈ n, Char.isDigit c = true)
    ∧ s.toList = "frame=".toList ++ (f ++ (" scan=".toList ++ (n ++ rest)))

/-- The string *begins with* `frame=<int> startScan=<int> endScan=<int>`;
arbitrary trailing characters may follow. -/
def spec_multi_scan_prefix_form (s : String) : Prop :=
  ∃ f a b rest : List Char, f ≠ [] ∧ a ≠ [] ∧ b ≠ []
    ∧ (∀ c ∈ f, Char.isDigit c = true) ∧ (∀ c ∈ a, Char.isDigit c = true)
    ∧ (∀ c ∈ b, Char.isDigit c = true)
    ∧ s.toList = "frame=".toList ++ (f ++ (" startScan=".toList
        ++ (a ++ (" endScan=".toList ++ (b ++ rest)))))

theorem dropLit_append (l r : List Char) : dropLit l (l ++ r) = some r := by
  induction l with
  | nil => rfl
  | cons c cs ih => simp [dropLit, ih]

theorem dropLit_eq_some : ∀ {l s r : List Char}, dropLit l s = some r → s = l ++ r := by
  intro l
  induction l with
  | nil =>
      intro s r h
      simp only [dropLit, Option.some.injEq] at h
      simp [h]
  | cons c cs ih =>
      intro s r h
      cases s with
      | nil => simp [dropLit] at h
      | cons d ds =>
          simp only [dropLit] at h
          by_cases hcd : c = d
          · rw [if_pos hcd] at h
            subst hcd
            rw [List.cons_append, ih h]
          · rw [if_neg hcd] at h
            cases h

theorem takeWhile_digits_append (f : List Char) (c : Char) (t : List Char)
    (hf : ∀ x ∈ f, Char.isDigit x = true) (hc : Char.isDigit c = false) :
    (f ++ c :: t).takeWhile Char.isDigit = f
    ∧ (f ++ c :: t).dropWhile Char.isDigit = c :: t := by
  induction f with
  | nil => simp [List.takeWhile_cons, List.dropWhile_cons, hc]
  | cons x xs ih =>
      have hx := hf x (List.mem_cons_self x xs)
      obtain ⟨h1, h2⟩ := ih (fun y hy => hf y (List.mem_cons_of_mem x hy))
      constructor
      · simp [List.takeWhile_cons, hx, h1]
      · simp [List.dropWhile_cons, hx, h2]

theorem takeNat_append_exact (f : List Char) (c : Char) (t : List Char)
    (hne : f ≠ []) (hf : ∀ x ∈ f, Char.isDigit x = true)
    (hc : Char.isDigit c = false) :
    takeNat (f ++ c :: t) = some (digitsToNat f, c :: t) := by
  obtain ⟨h1, h2⟩ := takeWhile_digits_append f c t hf hc
  simp only [takeNat, h1, h2]
  simp [List.isEmpty_iff, hne]

theorem takeNat_head_digit (x : Char) (l : List Char)
    (hx : Char.isDigit x = true) :
    ∃ v r, takeNat (x :: l) = some (v, r) := by
  refine ⟨digitsToNat ((x :: l).takeWhile Char.isDigit),
    (x :: l).dropWhile Char.isDigit, ?_⟩
  simp [takeNat, List.takeWhile_cons_of_pos hx]

theorem takeNat_eq_some {s : List Char} {v : Nat} {r : List Char}
    (h : takeNat s = some (v, r)) :
    ∃ ds : List Char, ds ≠ [] ∧ (∀ c ∈ ds, Char.isDigit c = true)
      ∧ s = ds ++ r := by
  simp only [takeNat] at h
  by_cases he : (s.takeWhile Char.isDigit).isEmpty = true
  · rw [if_pos he] at h; cases h
  · rw [if_neg he] at h
    injection h with h'
    have hr : s.dropWhile Char.isDigit = r := congrArg Prod.snd h'
    refine ⟨s.takeWhile Char.isDigit, by simpa [List.isEmpty_iff] using he,
      fun c hc => List.mem_takeWhile_imp hc, ?_⟩
    rw [← hr, List.takeWhile_append_dropWhile]

theorem getLast?_append_right {α : Type} (l1 l2 : List α) (h : l2 ≠ []) :
    (l1 ++ l2).getLast? = l2.getLast? := by
  have hs : l2.getLast?.isSome := List.getLast?_isSome.mpr h
  cases hl : l2.getLast? with
  | none => rw [hl] at hs; cases hs
  | some a => rw [List.getLast?_append, hl]; rfl

theorem single_match_isSome_iff (s : String) :
    (single_scan_id_match s).isSome = true ↔ spec_single_scan_prefix_form s := by
  constructor
  · intro h
    unfold single_scan_id_match at h
    cases h1 : dropLit ("frame=".toList) s.toList with
    | none => rw [h1, Option.none_bind] at h; simp at h
    | some r1 =>
        rw [h1, Option.some_bind] at h
        cases h2 : takeNat r1 with
        | none => rw [h2, Option.none_bind] at h; simp at h
        | some p =>
            obtain ⟨fv, r2⟩ := p
            rw [h2, Option.some_bind] at h
            dsimp only at h
            cases h3 : dropLit (" scan=".toList) r2 with
            | none => rw [h3, Option.none_bind] at h; simp at h
            | some r3 =>
                rw [h3, Option.some_bind] at h
                cases h4 : takeNat r3 with
                | none => rw [h4, Option.none_bind] at h; simp at h
                | some q =>
                    obtain ⟨nv, rest⟩ := q
                    have e1 := dropLit_eq_some h1
                    obtain ⟨ds1, hne1, hd1, e2⟩ := takeNat_eq_some h2
                    have e3 := dropLit_eq_some h3
                    obtain ⟨ds3, hne3, hd3, e4⟩ := takeNat_eq_some h4
                    exact ⟨ds1, ds3, rest, hne1, hne3, hd1, hd3,
                      by rw [e1, e2, e3, e4]⟩
  · rintro ⟨f, n, rest, hfne, hnne, hfd, hnd, heq⟩
    have h1 : dropLit ("frame=".toList) s.toList
        = some (f ++ (" scan=".toList ++ (n ++ rest))) := by
      rw [heq]; exact dropLit_append _ _
    have hsp : " scan=".toList ++ (n ++ rest)
        = ' ' :: ("scan=".toList ++ (n ++ rest)) := rfl
    have h2 : takeNat (f ++ (" scan=".toList ++ (n ++ rest)))
        = some (digitsToNat f, " scan=".toList ++ (n ++ rest)) := by
      rw [hsp]
      exact takeNat_append_exact f ' ' _ hfne hfd (by decide)
    have h3 : dropLit (" scan=".toList) (" scan=".toList ++ (n ++ rest))
        = some (n ++ rest) := dropLit_append _ _
    obtain ⟨x, n2, rfl⟩ : ∃ x n2, n = x :: n2 := by
      cases n with
      | nil => exact absurd rfl hnne
      | cons a b => exact ⟨a, b, rfl⟩
    have hx : Char.isDigit x = true := hnd x (List.mem_cons_self _ _)
    obtain ⟨v, r, h4⟩ := takeNat_head_digit x (n2 ++ rest) hx
    have hca : (x :: n2) ++ rest = x :: (n2 ++ rest) := List.cons_append _ _ _
    unfold single_scan_id_match
    rw [h1]
    simp only [Option.some_bind]
    rw [h2]
    simp only [Option.some_bind]
    rw [h3]
    simp only [Option.some_bind]
    rw [hca, h4]
    simp only [Option.some_bind]
    rfl

theorem multi_match_isSome_iff (s : String) :
    (multi_scan_id_match s).isSome = true ↔ spec_multi_scan_prefix_form s := by
  constructor
  · intro h
    unfold multi_scan_id_match at h
    cases h1 : dropLit ("frame=".toList) s.toList with
    | none => rw [h1, Option.none_bind] at h; simp at h
    | some r1 =>
        rw [h1, Option.some_bind] at h
        cases h2 : takeNat r1 with
        | none => rw [h2, Option.none_bind] at h; simp at h
        | some p =>
            obtain ⟨fv, r2⟩ := p
            rw [h2, Option.some_bind] at h
            dsimp only at h
            cases h3 : dropLit (" startScan=".toList) r2 with
            | none => rw [h3, Option.none_bind] at h; simp at h
            | some r3 =>
                rw [h3, Option.some_bind] at h
                cases h4 : takeNat r3 with
                | none => rw [h4, Option.none_bind] at h; simp at h
                | some q =>
                    obtain ⟨av, r4⟩ := q
                    rw [h4, Option.some_bind] at h
                    dsimp only at h
                    cases h5 : dropLit (" endScan=".toList) r4 with
                    | none => rw [h5, Option.none_bind] at h; simp at h
                    | some r5 =>
                        rw [h5, Option.some_bind] at h
                        cases h6 : takeNat r5 with
                        | none => rw [h6, Option.none_bind] at h; simp at h
                        | some w =>
                            obtain ⟨bv, rest⟩ := w
                            have e1 := dropLit_eq_some h1
                            obtain ⟨ds1, hne1, hd1, e2⟩ := takeNat_eq_some h2
                            have e3 := dropLit_eq_some h3
                            obtain ⟨ds3, hne3, hd3, e4⟩ := takeNat_eq_some h4
                            have e5 := dropLit_eq_some h5
                            obtain ⟨ds5, hne5, hd5, e6⟩ := takeNat_eq_some h6
                            exact ⟨ds1, ds3, ds5, rest, hne1, hne3, hne5,
                              hd1, hd3, hd5, by rw [e1, e2, e3, e4, e5, e6]⟩
  · rintro ⟨f, a, b, rest, hfne, hane, hbne, hfd, had, hbd, heq⟩
    have h1 : dropLit ("frame=".toList) s.toList
        = some (f ++ (" startScan=".toList ++ (a ++ (" endScan=".toList
            ++ (b ++ rest))))) := by
      rw [heq]; exact dropLit_append _ _
    have hsp : " startScan=".toList ++ (a ++ (" endScan=".toList ++ (b ++ rest)))
        = ' ' :: ("startScan=".toList ++ (a ++ (" endScan=".toList
            ++ (b ++ rest)))) := rfl
    have h2 : takeNat (f ++ (" startScan=".toList ++ (a ++ (" endScan=".toList
        ++ (b ++ rest)))))
        = some (digitsToNat f, " startScan=".toList ++ (a ++ (" endScan=".toList
            ++ (b ++ rest)))) := by
      rw [hsp]
      exact takeNat_append_exact f ' ' _ hfne hfd (by decide)
    have h3 : dropLit (" startScan=".toList) (" startScan=".toList
        ++ (a ++ (" endScan=".toList ++ (b ++ rest))))
        = some (a ++ (" endScan=".toList ++ (b ++ rest))) := dropLit_append _ _
    have hsp2 : " endScan=".toList ++ (b ++ rest)
        = ' ' :: ("endScan=".toList ++ (b ++ rest)) := rfl
    have h4 : takeNat (a ++ (" endScan=".toList ++ (b ++ rest)))
        = some (digitsToNat a, " endScan=".toList ++ (b ++ rest)) := by
      rw [hsp2]
      exact takeNat_append_exact a ' ' _ hane had (by decide)
    have h5 : dropLit (" endScan=".toList) (" endScan=".toList ++ (b ++ rest))
        = some (b ++ rest) := dropLit_append _ _
    obtain ⟨x, b2, rfl⟩ : ∃ x b2, b = x :: b2 := by
      cases b with
      | nil => exact absurd rfl hbne
      | cons u w => exact ⟨u, w, rfl⟩
    have hx : Char.isDigit x = true := hbd x (List.mem_cons_self _ _)
    obtain ⟨v, r, h6⟩ := takeNat_head_digit x (b2 ++ rest) hx
    have hca : (x :: b2) ++ rest = x :: (b2 ++ rest) := List.cons_append _ _ _
    unfold multi_scan_id_match
    rw [h1]
    simp only [Option.some_bind]
    rw [h2]
    simp only [Option.some_bind]
    rw [h3]
    simp only [Option.some_bind]
    rw [h4]
    simp only [Option.some_bind]
    rw [h5]
    simp only [Option.some_bind]
    rw [hca, h6]
    simp only [Option.some_bind]
    rfl


/-- Counterexample for C8: `frame=1 scan=2junk` is of neither §6 form —
both end in a non-digit — yet `get_scan_by_id` accepts it (as frame 1,
0-based scan 1) instead of raising `InvalidScanIdentifier`, because
`re.match` anchors at the start of the string only. -/
theorem get_scan_by_id_accepts_trailing_characters :
    ¬ spec_single_scan_form "frame=1 scan=2junk"
    ∧ ¬ spec_multi_scan_form "frame=1 scan=2junk"
    ∧ get_scan_by_id_ref "frame=1 scan=2junk" = .ok (1, 1, none) := by
  refine ⟨?_, ?_, rfl⟩
  · rintro ⟨f, n, hfne, hnne, hfd, hnd, heq⟩
    have hn2 : " scan=".toList ++ n ≠ [] := by
      intro hh
      exact hnne (List.append_eq_nil.mp hh).2
    have hn3 : f ++ (" scan=".toList ++ n) ≠ [] := by
      intro hh
      exact hn2 (List.append_eq_nil.mp hh).2
    have hlast : ("frame=1 scan=2junk".toList).getLast? = some 'k' := rfl
    rw [heq, getLast?_append_right _ _ hn3, getLast?_append_right _ _ hn2,
      getLast?_append_right _ _ hnne] at hlast
    have hk := List.mem_of_getLast?_eq_some hlast
    exact absurd (hnd 'k' hk) (by decide)
  · rintro ⟨f, a, b, hfne, hane, hbne, hfd, had, hbd, heq⟩
    have hb2 : " endScan=".toList ++ b ≠ [] := by
      intro hh
      exact hbne (List.append_eq_nil.mp hh).2
    have hb3 : a ++ (" endScan=".toList ++ b) ≠ [] := by
      intro hh
      exact hb2 (List.append_eq_nil.mp hh).2
    have hb4 : " startScan=".toList ++ (a ++ (" endScan=".toList ++ b)) ≠ [] := by
      intro hh
      exact hb3 (List.append_eq_nil.mp hh).2
    have hb5 : f ++ (" startScan=".toList ++ (a ++ (" endScan=".toList ++ b))) ≠ [] := by
      intro hh
      exact hb4 (List.append_eq_nil.mp hh).2
    have hlast : ("frame=1 scan=2junk".toList).getLast? = some 'k' := rfl
    rw [heq, getLast?_append_right _ _ hb5, getLast?_append_right _ _ hb4,
      getLast?_append_right _ _ hb3, getLast?_append_right _ _ hb2,
      getLast?_append_right _ _ hbne] at hlast
    have hk := List.mem_of_getLast?_eq_some hlast
    exact absurd (hbd 'k' hk) (by decide)

/-- C8 (amended).  `get_scan_by_id` fails with `InvalidScanIdentifier`
exactly for the strings that do not *begin with* either identifier form:
a valid `frame=<int> scan=<int>` or
`frame=<int> startScan=<int> endScan=<int>` prefix followed by arbitrary
trailing characters is accepted (`re.match` anchors only at the start),
every other string is rejected. -/
theorem get_scan_by_id_reject_iff_unmatched (s : String) :
    get_scan_by_id_ref s = .error .invalidScanIdentifier
      ↔ ¬ spec_single_scan_prefix_form s ∧ ¬ spec_multi_scan_prefix_form s := by
  rw [← single_match_isSome_iff, ← multi_match_isSome_iff]
  cases h1 : single_scan_id_match s with
  | some p =>
      obtain ⟨f, n⟩ := p
      simp [get_scan_by_id_ref, h1]
  | none =>
      cases h2 : multi_scan_id_match s with
      | some p =>
          obtain ⟨f, a, b⟩ := p
          simp [get_scan_by_id_ref, h1, h2]
      | none => simp [get_scan_by_id_ref, h1, h2]
